import Mathlib

/-!
Verification of the enhanced_calculator core: shallow embedding of the
calculation engine, the bounded history buffer, and the snapshot undo/redo
stacks, with theorems settling the specified properties.

Modelling conventions:
- Python floats are idealised as rational numbers (ℚ).  The arithmetic the
  claims depend on (add, subtract, multiply, divide, floored modulo, floor
  division, percent, absolute difference, the rounding step, and every error
  guard) is exactly rational.  Real-valued exponentiation `x ** y`, reached
  only inside the power and root operations when producing a successful
  value, is not rational-representable and is abstracted as an explicit
  function parameter `fpow`; no theorem below depends on its values.
- Python exceptions become `Except` values.  State-mutating methods return
  the updated state next to their result, and a raise that happens before
  any mutation returns the input state unchanged, mirroring the statement
  order of the source.
- Python stacks (list `append` plus `pop` at the tail) are modelled as Lean
  lists with the stack top at the head; the push/pop discipline is the same.
-/

namespace EnhancedCalculator

/-- Error taxonomy from `app/exceptions.py`: `ValidationError`,
`OperationError` and `HistoryError` (the three raised by the code the claims
cover; `ConfigurationError` is raised only during configuration loading,
which is outside the embedded core). -/
inductive CalcError where
  | validationError (msg : String)
  | operationError (msg : String)
  | historyError (msg : String)
deriving DecidableEq

/-- Errors escaping an `Operation.execute` body: either an `OperationError`
raised deliberately by the operation, or another Python exception (such as
the `ZeroDivisionError` from `0.0 ** negative`) that
`Calculator.calculate` later wraps into a generic `OperationError`. -/
inductive ExecErr where
  | opError (msg : String)
  | pyExc (msg : String)
deriving DecidableEq

/-- Python `str.strip()`: remove leading and trailing whitespace.  Modelled
directly on the character list of the string. -/
def pystrip (s : String) : String :=
  ⟨((s.data.dropWhile Char.isWhitespace).reverse.dropWhile Char.isWhitespace).reverse⟩

/-- Python `str.lower()`, modelled on the character list of the string (the
operation names the code compares against are plain ASCII). -/
def pylower (s : String) : String :=
  ⟨s.data.map Char.toLower⟩

/-- Python float modulo `a % b`, which follows the floored-division
convention: `a % b == a - b * floor(a / b)`. -/
def pymod (a b : ℚ) : ℚ := a - b * (⌊a / b⌋ : ℚ)

/-- Python `round` half-even tie-breaking on an exact rational: the nearest
integer, ties going to the even one. -/
def roundHalfEven (x : ℚ) : ℤ :=
  if x - ⌊x⌋ < 1 / 2 then ⌊x⌋
  else if 1 / 2 < x - ⌊x⌋ then ⌊x⌋ + 1
  else if ⌊x⌋ % 2 = 0 then ⌊x⌋ else ⌊x⌋ + 1

/-- Python `round(x, p)` for nonnegative `p`, idealised on exact rationals:
round-half-even at `p` decimal places. -/
def pyRound (x : ℚ) (p : ℕ) : ℚ := (roundHalfEven (x * 10 ^ p) : ℚ) / 10 ^ p

/-- Calculation record from `app/calculation.py`: operation name, the two
validated operands, the rounded result, and the creation instant (the
`datetime.now()` timestamp is modelled as a ℕ taken from a logical clock
the calculator advances at each record creation). -/
structure Calculation where
  operation : String
  operand1 : ℚ
  operand2 : ℚ
  result : ℚ
  timestamp : ℕ
deriving DecidableEq

/-- Addition, from `AddOperation.execute`. -/
def AddOperation.execute (a b : ℚ) : Except ExecErr ℚ := .ok (a + b)

/-- Subtraction, from `SubtractOperation.execute`. -/
def SubtractOperation.execute (a b : ℚ) : Except ExecErr ℚ := .ok (a - b)

/-- Multiplication, from `MultiplyOperation.execute`. -/
def MultiplyOperation.execute (a b : ℚ) : Except ExecErr ℚ := .ok (a * b)

/-- Division, from `DivideOperation.execute`: raises `OperationError` when
the divisor is zero. -/
def DivideOperation.execute (a b : ℚ) : Except ExecErr ℚ :=
  if b = 0 then .error (.opError "Division by zero is not allowed")
  else .ok (a / b)

/-- Power, from `PowerOperation.execute`.  `a ** b` in Python raises
`ZeroDivisionError` for `0.0 ** negative` (not caught by the except clause,
so it escapes as a plain Python exception), returns a complex number exactly
when the base is negative and the exponent is not an integer (then the
isinstance guard raises `OperationError`), and otherwise yields a real float
modelled by `fpow a b`.  Float overflow is outside the rational idealisation
and is not modelled. -/
def PowerOperation.execute (fpow : ℚ → ℚ → ℚ) (a b : ℚ) : Except ExecErr ℚ :=
  if a = 0 ∧ b < 0 then
    .error (.pyExc "0.0 cannot be raised to a negative power")
  else if a < 0 ∧ b.den ≠ 1 then
    .error (.opError ("Cannot compute " ++ toString a ++ " to the power of " ++ toString b))
  else .ok (fpow a b)

/-- Root, from `RootOperation.execute`, keeping the statement order of the
source: the even-root-of-negative guard (`operand1 < 0 and operand2 % 2 ==
0`) is tested BEFORE the zero-degree guard (`operand2 == 0`).  After the
guards, an odd root of a negative number is computed sign-aware as
`-((-a) ** (1.0 / b))`; the remaining branch computes `a ** (1.0 / b)`,
which is complex (and rejected by the isinstance guard) exactly when `a < 0`
with a non-integral exponent `1 / b`. -/
def RootOperation.execute (fpow : ℚ → ℚ → ℚ) (a b : ℚ) : Except ExecErr ℚ :=
  if a < 0 ∧ pymod b 2 = 0 then
    .error (.opError "Cannot compute even root of negative number")
  else if b = 0 then
    .error (.opError "Root degree cannot be zero")
  else if a < 0 ∧ pymod b 2 = 1 then
    .ok (-(fpow (-a) (1 / b)))
  else if a < 0 ∧ (1 / b).den ≠ 1 then
    .error (.opError ("Cannot compute " ++ toString b ++ "th root of " ++ toString a))
  else .ok (fpow a (1 / b))

/-- Modulus, from `ModulusOperation.execute`: raises `OperationError` when
the divisor is zero, otherwise Python float `%` (floored modulo). -/
def ModulusOperation.execute (a b : ℚ) : Except ExecErr ℚ :=
  if b = 0 then .error (.opError "Modulus by zero is not allowed")
  else .ok (pymod a b)

/-- Integer division, from `IntDivideOperation.execute`: raises
`OperationError` when the divisor is zero, otherwise Python `//` on floats,
which is `floor(a / b)`. -/
def IntDivideOperation.execute (a b : ℚ) : Except ExecErr ℚ :=
  if b = 0 then .error (.opError "Integer division by zero is not allowed")
  else .ok ((⌊a / b⌋ : ℚ))

/-- Percent, from `PercentOperation.execute`: raises `OperationError` when
the divisor is zero, otherwise `(a / b) * 100`. -/
def PercentOperation.execute (a b : ℚ) : Except ExecErr ℚ :=
  if b = 0 then .error (.opError "Percentage calculation: divisor cannot be zero")
  else .ok (a / b * 100)

/-- Absolute difference, from `AbsDiffOperation.execute`. -/
def AbsDiffOperation.execute (a b : ℚ) : Except ExecErr ℚ := .ok |a - b|

/-- Operation names registered in `OperationFactory._operations`, in
declaration order. -/
def OperationFactory.names : List String :=
  ["add", "subtract", "multiply", "divide", "power", "root",
   "modulus", "int_divide", "percent", "abs_diff"]

/-- Combined `OperationFactory.create` plus `execute` dispatch: the factory
lower-cases the requested name, looks it up in its `_operations` dictionary
(modelled as a name-by-name comparison chain), raises `OperationError` for a
name with no entry, and otherwise runs the matching operation. -/
def executeOperation (fpow : ℚ → ℚ → ℚ) (name : String) (a b : ℚ) :
    Except ExecErr ℚ :=
  let key := pylower name
  if key = "add" then AddOperation.execute a b
  else if key = "subtract" then SubtractOperation.execute a b
  else if key = "multiply" then MultiplyOperation.execute a b
  else if key = "divide" then DivideOperation.execute a b
  else if key = "power" then PowerOperation.execute fpow a b
  else if key = "root" then RootOperation.execute fpow a b
  else if key = "modulus" then ModulusOperation.execute a b
  else if key = "int_divide" then IntDivideOperation.execute a b
  else if key = "percent" then PercentOperation.execute a b
  else if key = "abs_diff" then AbsDiffOperation.execute a b
  else .error (.opError ("Unknown operation: " ++ key))

/-- Number validation from `InputValidator.validate_number`: the value is
already numeric in this embedding (string coercion failures belong to the
excluded REPL layer), so the remaining check is the configured magnitude
bound, `ValidationError` when `abs(number) > max_value`. -/
def InputValidator.validate_number (maxValue : ℚ) (value : ℚ) :
    Except CalcError ℚ :=
  if |value| > maxValue then
    .error (.validationError
      ("Number " ++ toString value ++ " exceeds maximum allowed value: " ++ toString maxValue))
  else .ok value

/-- Operation-name validation from `InputValidator.validate_operation`:
`ValidationError` when blank after trimming, otherwise trimmed and
lower-cased. -/
def InputValidator.validate_operation (operation : String) :
    Except CalcError String :=
  if pystrip operation = "" then
    .error (.validationError "Operation name cannot be empty")
  else .ok (pylower (pystrip operation))

/-- Operand validation from `InputValidator.validate_operands`: both
operands through `validate_number`, order preserved. -/
def InputValidator.validate_operands (maxValue : ℚ) (a b : ℚ) :
    Except CalcError (ℚ × ℚ) := do
  let a ← InputValidator.validate_number maxValue a
  let b ← InputValidator.validate_number maxValue b
  pure (a, b)

/-- History manager state from `app/history.py`: the record list and the
configured `CALCULATOR_MAX_HISTORY_SIZE`. -/
structure HistoryManager where
  history : List Calculation
  max_size : ℕ
deriving DecidableEq

/-- Append from `HistoryManager.add`: append the record, then if the length
exceeds `max_size`, pop the element at index 0 (the oldest). -/
def HistoryManager.add (hm : HistoryManager) (c : Calculation) : HistoryManager :=
  let h := hm.history ++ [c]
  { hm with history := if h.length > hm.max_size then h.drop 1 else h }

/-- Clearing from `HistoryManager.clear`. -/
def HistoryManager.clear (hm : HistoryManager) : HistoryManager :=
  { hm with history := [] }

/-- Listing from `HistoryManager.get_all`, which returns
`self.history.copy()`; list values are copies by construction here (the
aliasing consequences of the shallow copy are modelled separately below with
an explicit record store). -/
def HistoryManager.get_all (hm : HistoryManager) : List Calculation :=
  hm.history

/-- Caretaker state from `CalculatorCaretaker`: two stacks of history
snapshots.  A `CalculatorMemento` deep-copies the list it stores and
deep-copies it again on retrieval, so in this value semantics a memento is
simply the stored list.  Stack top is at the head. -/
structure CalculatorCaretaker where
  undo_stack : List (List Calculation)
  redo_stack : List (List Calculation)
deriving DecidableEq

/-- Snapshot push from `CalculatorCaretaker.save_state`: push a copy of the
current history onto the undo stack and clear the redo stack
unconditionally. -/
def CalculatorCaretaker.save_state (ct : CalculatorCaretaker)
    (history : List Calculation) : CalculatorCaretaker :=
  { undo_stack := history :: ct.undo_stack, redo_stack := [] }

/-- Undo transform from `CalculatorCaretaker.undo`: when the undo stack is
empty return the current history unchanged; otherwise push a copy of the
current history onto the redo stack, pop the undo stack, and return the
popped snapshot.  The updated caretaker is returned next to the history. -/
def CalculatorCaretaker.undo (ct : CalculatorCaretaker)
    (current : List Calculation) : List Calculation × CalculatorCaretaker :=
  match ct.undo_stack with
  | [] => (current, ct)
  | prev :: rest =>
      (prev, { undo_stack := rest, redo_stack := current :: ct.redo_stack })

/-- Redo transform from `CalculatorCaretaker.redo`, symmetric to undo. -/
def CalculatorCaretaker.redo (ct : CalculatorCaretaker)
    (current : List Calculation) : List Calculation × CalculatorCaretaker :=
  match ct.redo_stack with
  | [] => (current, ct)
  | next :: rest =>
      (next, { undo_stack := current :: ct.undo_stack, redo_stack := rest })

/-- Emptiness check from `CalculatorCaretaker.can_undo`. -/
def CalculatorCaretaker.can_undo (ct : CalculatorCaretaker) : Bool :=
  decide (0 < ct.undo_stack.length)

/-- Emptiness check from `CalculatorCaretaker.can_redo`. -/
def CalculatorCaretaker.can_redo (ct : CalculatorCaretaker) : Bool :=
  decide (0 < ct.redo_stack.length)

/-- Calculator state from `app/calculator.py`: the history manager, the
caretaker, and the configuration values `calculate` reads
(`CALCULATOR_PRECISION` and `CALCULATOR_MAX_INPUT_VALUE`), plus the logical
clock supplying record timestamps.  Observers perform only logging and file
output, so they contribute no state here. -/
structure Calculator where
  historyManager : HistoryManager
  caretaker : CalculatorCaretaker
  precision : ℕ
  maxInputValue : ℚ
  clock : ℕ
deriving DecidableEq

/-- Freshly constructed calculator, from `Calculator.__init__`: empty
history, both stacks empty. -/
def Calculator.fresh (max_size precision : ℕ) (maxInputValue : ℚ) : Calculator :=
  { historyManager := { history := [], max_size := max_size },
    caretaker := { undo_stack := [], redo_stack := [] },
    precision := precision,
    maxInputValue := maxInputValue,
    clock := 0 }

/-- Pure prefix of `Calculator.calculate` (everything before the first state
mutation, in source order): validate the operation name, validate the
operands, create and execute the operation (re-raising an `OperationError`
unchanged and wrapping any other exception into
`OperationError("Operation failed: ...")`), round the result to the
configured precision, and build the `Calculation` record. -/
def Calculator.prepare (fpow : ℚ → ℚ → ℚ) (c : Calculator)
    (operation : String) (a b : ℚ) : Except CalcError Calculation := do
  let opName ← InputValidator.validate_operation operation
  let (a, b) ← InputValidator.validate_operands c.maxInputValue a b
  let result ←
    match executeOperation fpow opName a b with
    | .error (.opError msg) => Except.error (CalcError.operationError msg)
    | .error (.pyExc msg) =>
        Except.error (CalcError.operationError ("Operation failed: " ++ msg))
    | .ok r => Except.ok r
  let result := pyRound result c.precision
  pure { operation := opName, operand1 := a, operand2 := b,
         result := result, timestamp := c.clock }

/-- Mutating suffix of `Calculator.calculate`, in source order: save the
pre-append history into the caretaker (clearing redo), append the record to
the history (with eviction), advance the clock. -/
def Calculator.commit (c : Calculator) (cal : Calculation) : Calculator :=
  { c with
    caretaker := c.caretaker.save_state c.historyManager.get_all,
    historyManager := c.historyManager.add cal,
    clock := c.clock + 1 }

/-- Full `Calculator.calculate`: on any raise before the mutations the state
is unchanged (the source mutates nothing before `save_state`); on success
the mutations of `commit` run and the rounded result is returned. -/
def Calculator.calculate (fpow : ℚ → ℚ → ℚ) (c : Calculator)
    (operation : String) (a b : ℚ) : Except CalcError ℚ × Calculator :=
  match c.prepare fpow operation a b with
  | .error e => (.error e, c)
  | .ok cal => (.ok cal.result, c.commit cal)

/-- Listing from `Calculator.get_history`. -/
def Calculator.get_history (c : Calculator) : List Calculation :=
  c.historyManager.get_all

/-- Clearing from `Calculator.clear_history`: snapshot the current state
(making the clear undoable), then empty the buffer. -/
def Calculator.clear_history (c : Calculator) : Calculator :=
  { c with
    caretaker := c.caretaker.save_state c.historyManager.get_all,
    historyManager := c.historyManager.clear }

/-- Undo from `Calculator.undo`: `False` when the caretaker has no undo
state; otherwise the live history is replaced by the restored snapshot and
`True` is returned. -/
def Calculator.undo (c : Calculator) : Bool × Calculator :=
  if c.caretaker.can_undo = false then (false, c)
  else
    let r := c.caretaker.undo c.historyManager.get_all
    (true, { c with
             caretaker := r.2,
             historyManager := { c.historyManager with history := r.1 } })

/-- Redo from `Calculator.redo`, symmetric to undo. -/
def Calculator.redo (c : Calculator) : Bool × Calculator :=
  if c.caretaker.can_redo = false then (false, c)
  else
    let r := c.caretaker.redo c.historyManager.get_all
    (true, { c with
             caretaker := r.2,
             historyManager := { c.historyManager with history := r.1 } })

/-- Parsed view of a CSV file as `pandas.read_csv` exposes it to
`HistoryManager.load_from_csv`: the header columns, and one entry per data
row, already taken through `Calculation.from_dict` — `some record` for a row
that parses, `none` for a row whose parse raises (such rows are skipped).
A file whose parse raises `pandas.errors.EmptyDataError` (no header at all)
is modelled by an empty column list. -/
structure CsvFile where
  columns : List String
  rows : List (Option Calculation)
deriving DecidableEq

/-- File system visible to the loader: `none` for a path that does not
exist, `some file` for a readable CSV at that path. -/
def FileSystem : Type := String → Option CsvFile

/-- Required persistence columns, from `load_from_csv`. -/
def requiredColumns : List String :=
  ["operation", "operand1", "operand2", "result", "timestamp"]

/-- Loading from `HistoryManager.load_from_csv`: a missing file returns an
empty list with the manager untouched; a file with no parseable header
(EmptyDataError) likewise returns an empty list; a present file missing a
required column raises `HistoryError`; otherwise the rows that parse become
the new history (replacing it, with no truncation to `max_size`) and are
returned. -/
def HistoryManager.load_from_csv (fs : FileSystem) (hm : HistoryManager)
    (path : String) : Except CalcError (List Calculation × HistoryManager) :=
  match fs path with
  | none => .ok ([], hm)
  | some file =>
      if file.columns = [] then .ok ([], hm)
      else if requiredColumns.all (fun col => file.columns.contains col) then
        let calculations := file.rows.filterMap id
        .ok (calculations, { hm with history := calculations })
      else
        .error (.historyError
          ("CSV file missing required columns: " ++ toString requiredColumns))

/-- Loading from `Calculator.load_history`: delegate to the history manager;
a raised `HistoryError` leaves the calculator unchanged. -/
def Calculator.load_history (fs : FileSystem) (c : Calculator)
    (path : String) : Except CalcError (List Calculation) × Calculator :=
  match c.historyManager.load_from_csv fs path with
  | .error e => (.error e, c)
  | .ok (calcs, hm) => (.ok calcs, { c with historyManager := hm })

/-- Run a list of `calculate` calls left to right, `none` as soon as one
fails. -/
def Calculator.runCalcs (fpow : ℚ → ℚ → ℚ) (c : Calculator) :
    List (String × ℚ × ℚ) → Option Calculator
  | [] => some c
  | (op, a, b) :: rest =>
      match c.calculate fpow op a b with
      | (.ok _, c1) => c1.runCalcs fpow rest
      | (.error _, _) => none

/-- Records constructed by a list of `calculate` calls, left to right,
stopping at the first failure. -/
def Calculator.runRecords (fpow : ℚ → ℚ → ℚ) (c : Calculator) :
    List (String × ℚ × ℚ) → List Calculation
  | [] => []
  | (op, a, b) :: rest =>
      match c.prepare fpow op a b with
      | .ok cal => cal :: (c.commit cal).runRecords fpow rest
      | .error _ => []

/-- References and an explicit record store, modelling the one aspect value
semantics hides: `HistoryManager.get_all` returns `self.history.copy()`, a
NEW list object whose elements are the SAME `Calculation` objects, and
`Calculation` is declared with a plain `@dataclass` (frozen is not set), so
a caller may assign to a field of a record it obtained from `get_all`.  A
reference is an index into the store. -/
abbrev CalcRef : Type := ℕ

/-- Store of live `Calculation` objects; the reference `r` denotes the
record at index `r`. -/
structure CalcStore where
  recs : List Calculation
deriving DecidableEq

/-- Internal history of the manager, as the list of references its `history`
list holds. -/
structure RefHistory where
  history : List CalcRef
deriving DecidableEq

/-- Listing from `HistoryManager.get_all` at the reference level:
`self.history.copy()` yields a fresh list holding the same references. -/
def RefHistory.get_all (hm : RefHistory) : List CalcRef := hm.history

/-- Field assignment `record.result = v` on a record reached through
reference `r`: permitted by Python because `Calculation` is a mutable
dataclass; it updates the shared object in the store. -/
def CalcStore.setResult (s : CalcStore) (r : CalcRef) (v : ℚ) : CalcStore :=
  match s.recs[(r : ℕ)]? with
  | some cal => { recs := s.recs.set r { cal with result := v } }
  | none => s

/-- Record values the manager currently sees through its references. -/
def RefHistory.values (s : CalcStore) (hm : RefHistory) :
    List (Option Calculation) :=
  hm.history.map fun r => s.recs[(r : ℕ)]?

/-- Trivial stand-in for the abstracted real exponentiation, used to
instantiate `fpow` in concrete evaluations (no settled property depends on
its values). -/
def fpow0 : ℚ → ℚ → ℚ := fun _ _ => 0

/-- Small concrete calculator used in concrete evaluations: capacity 2,
precision 0, input magnitude bound 10. -/
def demoCalc : Calculator := Calculator.fresh 2 0 10

/-- State of `demoCalc` after one successful addition. -/
def demoAfterAdd : Calculator := (demoCalc.calculate fpow0 "add" 1 2).2

/-- Record that `demoCalc.calculate fpow0 "add" 1 2` constructs. -/
def addRecord : Calculation :=
  { operation := "add", operand1 := 1, operand2 := 2, result := 3, timestamp := 0 }

/-- Capacity invariant for the bounded-history claim: the configured
capacity is M, the live history fits in M, and every snapshot on either
stack fits in M. -/
def CalcInv (M : ℕ) (c : Calculator) : Prop :=
  c.historyManager.max_size = M
  ∧ c.historyManager.history.length ≤ M
  ∧ (∀ s ∈ c.caretaker.undo_stack, s.length ≤ M)
  ∧ ∀ s ∈ c.caretaker.redo_stack, s.length ≤ M

/-- One step through a state-changing public entry point of the calculator:
a `calculate` call (successful or failed), `undo`, `redo`, or
`clear_history`. -/
inductive CalcStep (fpow : ℚ → ℚ → ℚ) : Calculator → Calculator → Prop where
  | step_calculate (c : Calculator) (op : String) (a b : ℚ) :
      CalcStep fpow c (c.calculate fpow op a b).2
  | step_undo (c : Calculator) : CalcStep fpow c c.undo.2
  | step_redo (c : Calculator) : CalcStep fpow c c.redo.2
  | step_clear (c : Calculator) : CalcStep fpow c c.clear_history

/-- Concrete CSV content with the required header and two parseable rows. -/
def demoCsv : CsvFile :=
  { columns := requiredColumns, rows := [some addRecord, some addRecord] }

/-- Concrete file system holding `demoCsv` at one path. -/
def demoFs : FileSystem :=
  fun p => if p = "history.csv" then some demoCsv else none

instance {ε α : Type} [DecidableEq ε] [DecidableEq α] :
    DecidableEq (Except ε α) := fun x y =>
  match x, y with
  | .ok a, .ok b =>
      if h : a = b then .isTrue (by rw [h]) else .isFalse (by simp [h])
  | .error a, .error b =>
      if h : a = b then .isTrue (by rw [h]) else .isFalse (by simp [h])
  | .ok _, .error _ => .isFalse (by simp)
  | .error _, .ok _ => .isFalse (by simp)

theorem pystrip_add : pystrip "add" = "add" := by decide

theorem pylower_add : pylower "add" = "add" := by decide

theorem pystrip_divide : pystrip "divide" = "divide" := by decide

theorem pylower_divide : pylower "divide" = "divide" := by decide

theorem calculate_of_prepare_ok (fpow : ℚ → ℚ → ℚ) (c : Calculator)
    (op : String) (a b : ℚ) (cal : Calculation)
    (h : c.prepare fpow op a b = .ok cal) :
    c.calculate fpow op a b = (.ok cal.result, c.commit cal) := by
  simp [Calculator.calculate, h]

theorem calculate_of_prepare_error (fpow : ℚ → ℚ → ℚ) (c : Calculator)
    (op : String) (a b : ℚ) (e : CalcError)
    (h : c.prepare fpow op a b = .error e) :
    c.calculate fpow op a b = (.error e, c) := by
  simp [Calculator.calculate, h]

theorem demoCalc_prepare_add :
    demoCalc.prepare fpow0 "add" 1 2 = .ok addRecord := by
  have h1 : InputValidator.validate_operation "add" = .ok "add" := by
    simp [InputValidator.validate_operation, pystrip_add, pylower_add]
  have h2 : InputValidator.validate_operands (10 : ℚ) 1 2 = .ok (1, 2) := by
    norm_num [InputValidator.validate_operands, InputValidator.validate_number,
      bind, Except.bind, pure, Except.pure]
  have h3 : executeOperation fpow0 "add" 1 2 = .ok 3 := by
    norm_num [executeOperation, AddOperation.execute, pylower_add]
  have h4 : pyRound 3 0 = 3 := by norm_num [pyRound, roundHalfEven]
  simp [Calculator.prepare, demoCalc, Calculator.fresh, h1, h2, h3, h4,
    bind, Except.bind, pure, Except.pure, addRecord]

theorem demoAfterAdd_eq : demoAfterAdd = demoCalc.commit addRecord := by
  rw [demoAfterAdd, calculate_of_prepare_ok fpow0 demoCalc "add" 1 2 addRecord
    demoCalc_prepare_add]

theorem demoCalc_prepare_divide_zero :
    demoCalc.prepare fpow0 "divide" 1 0
      = .error (.operationError "Division by zero is not allowed") := by
  have h1 : InputValidator.validate_operation "divide" = .ok "divide" := by
    simp [InputValidator.validate_operation, pystrip_divide, pylower_divide]
  have h2 : InputValidator.validate_operands (10 : ℚ) 1 0 = .ok (1, 0) := by
    norm_num [InputValidator.validate_operands, InputValidator.validate_number,
      bind, Except.bind, pure, Except.pure]
  have h3 : executeOperation fpow0 "divide" 1 0
      = .error (.opError "Division by zero is not allowed") := by
    simp [executeOperation, DivideOperation.execute, pylower_divide]
  simp [Calculator.prepare, demoCalc, Calculator.fresh, h1, h2, h3,
    bind, Except.bind, pure, Except.pure]

/-- C2: for every calculator state in which `can_undo()` holds, performing
`undo()` immediately followed by `redo()` restores the history to a value
equal, element by element, to the history as it was just before the undo. -/
theorem undo_then_redo_restores_history (c : Calculator)
    (h : c.caretaker.can_undo = true) :
    ((c.undo.2).redo.2).historyManager.history = c.historyManager.history := by
  cases hct : c.caretaker.undo_stack with
  | nil =>
      rw [CalculatorCaretaker.can_undo, hct] at h
      simp at h
  | cons prev rest =>
      simp [Calculator.undo, Calculator.redo, CalculatorCaretaker.can_undo,
        CalculatorCaretaker.can_redo, CalculatorCaretaker.undo,
        CalculatorCaretaker.redo, HistoryManager.get_all, hct]

theorem undo_then_redo_restores_history_witness :
    ((demoAfterAdd.undo.2).redo.2).historyManager.history
      = demoAfterAdd.historyManager.history :=
  undo_then_redo_restores_history demoAfterAdd
    (by rw [demoAfterAdd_eq]; rfl)

/-- C3: immediately after every successful `calculate` call, and after every
`clear_history` call, `can_redo()` returns false, because `save_state`
unconditionally clears the redo stack. -/
theorem new_action_clears_redo (fpow : ℚ → ℚ → ℚ) :
    (∀ (c : Calculator) (op : String) (a b r : ℚ) (c1 : Calculator),
        c.calculate fpow op a b = (.ok r, c1) → c1.caretaker.can_redo = false)
    ∧ ∀ c : Calculator, c.clear_history.caretaker.can_redo = false := by
  constructor
  · intro c op a b r c1 h
    cases hp : c.prepare fpow op a b with
    | error e => rw [calculate_of_prepare_error fpow c op a b e hp] at h; simp at h
    | ok cal =>
        rw [calculate_of_prepare_ok fpow c op a b cal hp] at h
        obtain ⟨-, rfl⟩ := Prod.mk.injEq .. ▸ h
        simp [Calculator.commit, CalculatorCaretaker.save_state,
          CalculatorCaretaker.can_redo]
  · intro c
    simp [Calculator.clear_history, CalculatorCaretaker.save_state,
      CalculatorCaretaker.can_redo]

theorem new_action_clears_redo_witness :
    demoAfterAdd.caretaker.can_redo = false
      ∧ demoCalc.clear_history.caretaker.can_redo = false :=
  ⟨(new_action_clears_redo fpow0).1 demoCalc "add" 1 2 3 demoAfterAdd
      (by rw [calculate_of_prepare_ok fpow0 demoCalc "add" 1 2 addRecord
          demoCalc_prepare_add, demoAfterAdd_eq]; rfl),
   (new_action_clears_redo fpow0).2 demoCalc⟩

/-- C9: for every file path that does not exist on disk, `load_history`
returns an empty sequence, raises no error, and leaves the calculator
unchanged. -/
theorem load_history_missing_file (fs : FileSystem) (c : Calculator)
    (path : String) (h : fs path = none) :
    c.load_history fs path = (.ok [], c) := by
  simp [Calculator.load_history, HistoryManager.load_from_csv, h]

theorem load_history_missing_file_witness :
    demoCalc.load_history (fun _ => none) "/nonexistent/path.csv"
      = (.ok [], demoCalc) :=
  load_history_missing_file (fun _ => none) demoCalc "/nonexistent/path.csv" rfl

/-- C10: a `calculate` call that fails (with a validation error or an
operation error) leaves the calculator exactly as it was: the state is
unchanged, so `can_undo()` and `can_redo()` are unchanged and a subsequent
`undo` restores the same state it would have restored without the failed
call. -/
theorem failed_calculate_preserves_state (fpow : ℚ → ℚ → ℚ) (c : Calculator)
    (op : String) (a b : ℚ) (e : CalcError)
    (h : (c.calculate fpow op a b).1 = .error e) :
    (c.calculate fpow op a b).2 = c
    ∧ ((c.calculate fpow op a b).2).caretaker.can_undo = c.caretaker.can_undo
    ∧ ((c.calculate fpow op a b).2).caretaker.can_redo = c.caretaker.can_redo
    ∧ ((c.calculate fpow op a b).2).undo = c.undo := by
  cases hp : c.prepare fpow op a b with
  | error e1 => rw [calculate_of_prepare_error fpow c op a b e1 hp]; exact ⟨rfl, rfl, rfl, rfl⟩
  | ok cal => rw [calculate_of_prepare_ok fpow c op a b cal hp] at h ⊢; simp at h

theorem failed_calculate_preserves_state_witness :
    (demoCalc.calculate fpow0 "divide" 1 0).2 = demoCalc
    ∧ ((demoCalc.calculate fpow0 "divide" 1 0).2).caretaker.can_undo
        = demoCalc.caretaker.can_undo
    ∧ ((demoCalc.calculate fpow0 "divide" 1 0).2).caretaker.can_redo
        = demoCalc.caretaker.can_redo
    ∧ ((demoCalc.calculate fpow0 "divide" 1 0).2).undo = demoCalc.undo :=
  failed_calculate_preserves_state fpow0 demoCalc "divide" 1 0
    (.operationError "Division by zero is not allowed")
    (by rw [calculate_of_prepare_error fpow0 demoCalc "divide" 1 0
        (.operationError "Division by zero is not allowed")
        demoCalc_prepare_divide_zero])

theorem pystrip_modulus : pystrip "modulus" = "modulus" := by decide

theorem pylower_modulus : pylower "modulus" = "modulus" := by decide

theorem pystrip_int_divide : pystrip "int_divide" = "int_divide" := by decide

theorem pylower_int_divide : pylower "int_divide" = "int_divide" := by decide

theorem pystrip_percent : pystrip "percent" = "percent" := by decide

theorem pylower_percent : pylower "percent" = "percent" := by decide

theorem pymod_eq_mul_fract (a b : ℚ) (hb : b ≠ 0) :
    pymod a b = b * Int.fract (a / b) := by
  unfold pymod Int.fract
  rw [mul_sub, mul_div_cancel₀ a hb]

theorem pymod_two_eq_zero_iff (b : ℚ) :
    pymod b 2 = 0 ↔ ∃ k : ℤ, b = 2 * k := by
  constructor
  · intro h
    refine ⟨⌊b / 2⌋, ?_⟩
    have h2 : b - 2 * (⌊b / 2⌋ : ℚ) = 0 := h
    linarith
  · rintro ⟨k, rfl⟩
    have h2 : (2 : ℚ) * (k : ℚ) / 2 = (k : ℚ) := by
      field_simp
    unfold pymod
    rw [h2, Int.floor_intCast]
    ring

/-- C8: for every divisor b different from zero, the modulus operation
returns the floored-modulo remainder `a - b * floor(a / b)`, whose sign,
when the remainder is nonzero, equals the sign of the divisor b. -/
theorem modulus_floored_convention (a b : ℚ) (hb : b ≠ 0) :
    ModulusOperation.execute a b = .ok (pymod a b)
    ∧ pymod a b = a - b * (⌊a / b⌋ : ℚ)
    ∧ (pymod a b ≠ 0 → (0 < pymod a b ↔ 0 < b)) := by
  refine ⟨by simp [ModulusOperation.execute, hb], rfl, ?_⟩
  intro hr
  have hfe : pymod a b = b * Int.fract (a / b) := pymod_eq_mul_fract a b hb
  have hfr : Int.fract (a / b) ≠ 0 := by
    intro h0
    rw [hfe, h0, mul_zero] at hr
    exact hr rfl
  have hfr1 : 0 < Int.fract (a / b) :=
    lt_of_le_of_ne (Int.fract_nonneg _) (Ne.symm hfr)
  rw [hfe]
  constructor
  · intro h
    by_contra hb1
    push_neg at hb1
    have hneg : b < 0 := lt_of_le_of_ne hb1 hb
    nlinarith
  · intro h
    exact mul_pos h hfr1

theorem modulus_floored_convention_witness :
    ModulusOperation.execute 7 (-3) = .ok (pymod 7 (-3))
    ∧ pymod 7 (-3) = 7 - (-3) * (⌊(7 : ℚ) / (-3)⌋ : ℚ)
    ∧ (pymod 7 (-3) ≠ 0 → (0 < pymod 7 (-3) ↔ 0 < (-3 : ℚ))) :=
  modulus_floored_convention 7 (-3) (by norm_num)

/-- C6 counterexample: at operands a = -1, b = 0 the root operation fails,
but with the even-root-of-negative message, not the message
"Root degree cannot be zero" the claim asserts for every a, because the
source tests `operand1 < 0 and operand2 % 2 == 0` (satisfied by b = 0)
before it tests `operand2 == 0`. -/
theorem root_zero_degree_negative_counterexample :
    RootOperation.execute fpow0 (-1) 0
      = .error (.opError "Cannot compute even root of negative number")
    ∧ RootOperation.execute fpow0 (-1) 0
      ≠ .error (.opError "Root degree cannot be zero") := by
  have h : RootOperation.execute fpow0 (-1) 0
      = .error (.opError "Cannot compute even root of negative number") := by
    rw [RootOperation.execute, if_pos]
    exact ⟨by norm_num, by norm_num [pymod]⟩
  refine ⟨h, ?_⟩
  rw [h]
  simp

/-- C6 (amended): the root operation with degree b = 0 fails with message
"Root degree cannot be zero" when a is nonnegative; when a is negative the
even-root-of-negative guard fires first (0 is an even integer), so every
a < 0 with b an even integer — b = 0 included — fails with message
"Cannot compute even root of negative number"; and the guard condition
`b % 2 == 0` holds exactly when b is an even integer. -/
theorem root_error_conditions (fpow : ℚ → ℚ → ℚ) (a b : ℚ) :
    (0 ≤ a → b = 0 →
      RootOperation.execute fpow a b
        = .error (.opError "Root degree cannot be zero"))
    ∧ (a < 0 → (∃ k : ℤ, b = 2 * k) →
      RootOperation.execute fpow a b
        = .error (.opError "Cannot compute even root of negative number"))
    ∧ (pymod b 2 = 0 ↔ ∃ k : ℤ, b = 2 * k) := by
  refine ⟨?_, ?_, pymod_two_eq_zero_iff b⟩
  · intro ha hb
    subst hb
    rw [RootOperation.execute, if_neg, if_pos rfl]
    intro hcontra
    exact absurd ha (not_le.mpr hcontra.1)
  · intro ha hk
    rw [RootOperation.execute,
      if_pos ⟨ha, (pymod_two_eq_zero_iff b).mpr hk⟩]

theorem root_error_conditions_witness :
    (RootOperation.execute fpow0 4 0
      = .error (.opError "Root degree cannot be zero"))
    ∧ (RootOperation.execute fpow0 (-4) 2
      = .error (.opError "Cannot compute even root of negative number")) :=
  ⟨(root_error_conditions fpow0 4 0).1 (by norm_num) rfl,
   (root_error_conditions fpow0 (-4) 2).2.1 (by norm_num) ⟨1, by norm_num⟩⟩

/-- C4: with either operand within the configured magnitude bound and the
second operand zero, `calculate` with operation divide, modulus, int_divide
or percent fails with an operation error, and the calculator state — in
particular the history buffer — is exactly what it was before the call. -/
theorem division_family_by_zero (fpow : ℚ → ℚ → ℚ) (c : Calculator)
    (op : String) (a : ℚ)
    (hop : op = "divide" ∨ op = "modulus" ∨ op = "int_divide" ∨ op = "percent")
    (ha : |a| ≤ c.maxInputValue) :
    ∃ msg, c.calculate fpow op a 0 = (.error (.operationError msg), c) := by
  have hva : InputValidator.validate_number c.maxInputValue a = .ok a := by
    simp [InputValidator.validate_number, not_lt.mpr ha]
  have hvb : InputValidator.validate_number c.maxInputValue 0 = .ok 0 := by
    have h0 : (0 : ℚ) ≤ c.maxInputValue := le_trans (abs_nonneg a) ha
    simp [InputValidator.validate_number, abs_of_nonneg (le_refl (0 : ℚ))]
    exact h0
  have hops : InputValidator.validate_operands c.maxInputValue a 0 = .ok (a, 0) := by
    simp [InputValidator.validate_operands, hva, hvb, bind, Except.bind,
      pure, Except.pure]
  rcases hop with rfl | rfl | rfl | rfl
  · refine ⟨"Division by zero is not allowed", ?_⟩
    apply calculate_of_prepare_error
    have hvo : InputValidator.validate_operation "divide" = .ok "divide" := by
      simp [InputValidator.validate_operation, pystrip_divide, pylower_divide]
    have hex : executeOperation fpow "divide" a 0
        = .error (.opError "Division by zero is not allowed") := by
      simp [executeOperation, DivideOperation.execute, pylower_divide]
    simp [Calculator.prepare, hvo, hops, hex, bind, Except.bind]
  · refine ⟨"Modulus by zero is not allowed", ?_⟩
    apply calculate_of_prepare_error
    have hvo : InputValidator.validate_operation "modulus" = .ok "modulus" := by
      simp [InputValidator.validate_operation, pystrip_modulus, pylower_modulus]
    have hex : executeOperation fpow "modulus" a 0
        = .error (.opError "Modulus by zero is not allowed") := by
      simp [executeOperation, ModulusOperation.execute, pylower_modulus]
    simp [Calculator.prepare, hvo, hops, hex, bind, Except.bind]
  · refine ⟨"Integer division by zero is not allowed", ?_⟩
    apply calculate_of_prepare_error
    have hvo : InputValidator.validate_operation "int_divide" = .ok "int_divide" := by
      simp [InputValidator.validate_operation, pystrip_int_divide, pylower_int_divide]
    have hex : executeOperation fpow "int_divide" a 0
        = .error (.opError "Integer division by zero is not allowed") := by
      simp [executeOperation, IntDivideOperation.execute, pylower_int_divide]
    simp [Calculator.prepare, hvo, hops, hex, bind, Except.bind]
  · refine ⟨"Percentage calculation: divisor cannot be zero", ?_⟩
    apply calculate_of_prepare_error
    have hvo : InputValidator.validate_operation "percent" = .ok "percent" := by
      simp [InputValidator.validate_operation, pystrip_percent, pylower_percent]
    have hex : executeOperation fpow "percent" a 0
        = .error (.opError "Percentage calculation: divisor cannot be zero") := by
      simp [executeOperation, PercentOperation.execute, pylower_percent]
    simp [Calculator.prepare, hvo, hops, hex, bind, Except.bind]

theorem division_family_by_zero_witness :
    ∃ msg, demoCalc.calculate fpow0 "modulus" 1 0
      = (.error (.operationError msg), demoCalc) :=
  division_family_by_zero fpow0 demoCalc "modulus" 1
    (Or.inr (Or.inl rfl)) (by norm_num [demoCalc, Calculator.fresh])

theorem runCalcs_cons_ok (fpow : ℚ → ℚ → ℚ) (c : Calculator) (op : String)
    (a b : ℚ) (rest : List (String × ℚ × ℚ)) (cal : Calculation)
    (h : c.prepare fpow op a b = .ok cal) :
    c.runCalcs fpow ((op, a, b) :: rest) = (c.commit cal).runCalcs fpow rest := by
  rw [Calculator.runCalcs, calculate_of_prepare_ok fpow c op a b cal h]

theorem runCalcs_cons_error (fpow : ℚ → ℚ → ℚ) (c : Calculator) (op : String)
    (a b : ℚ) (rest : List (String × ℚ × ℚ)) (e : CalcError)
    (h : c.prepare fpow op a b = .error e) :
    c.runCalcs fpow ((op, a, b) :: rest) = none := by
  rw [Calculator.runCalcs, calculate_of_prepare_error fpow c op a b e h]

theorem runRecords_cons_ok (fpow : ℚ → ℚ → ℚ) (c : Calculator) (op : String)
    (a b : ℚ) (rest : List (String × ℚ × ℚ)) (cal : Calculation)
    (h : c.prepare fpow op a b = .ok cal) :
    c.runRecords fpow ((op, a, b) :: rest)
      = cal :: (c.commit cal).runRecords fpow rest := by
  rw [Calculator.runRecords, h]

theorem commit_historyManager (c : Calculator) (cal : Calculation) :
    (c.commit cal).historyManager = c.historyManager.add cal := rfl

theorem commit_max_size (c : Calculator) (cal : Calculation) :
    (c.commit cal).historyManager.max_size = c.historyManager.max_size := rfl

theorem add_history_of_full (hm : HistoryManager) (cal : Calculation)
    (h : hm.max_size ≤ hm.history.length) :
    (hm.add cal).history = (hm.history ++ [cal]).drop 1 := by
  show (if (hm.history ++ [cal]).length > hm.max_size then
      (hm.history ++ [cal]).drop 1 else hm.history ++ [cal]) = _
  rw [if_pos (by simp; omega)]

theorem add_history_of_not_full (hm : HistoryManager) (cal : Calculation)
    (h : hm.history.length < hm.max_size) :
    (hm.add cal).history = hm.history ++ [cal] := by
  show (if (hm.history ++ [cal]).length > hm.max_size then
      (hm.history ++ [cal]).drop 1 else hm.history ++ [cal]) = _
  rw [if_neg (by simp; omega)]

theorem runRecords_length (fpow : ℚ → ℚ → ℚ) (inputs : List (String × ℚ × ℚ)) :
    ∀ c c1 : Calculator, c.runCalcs fpow inputs = some c1 →
      (c.runRecords fpow inputs).length = inputs.length := by
  induction inputs with
  | nil => intro c c1 _; rfl
  | cons hd rest ih =>
      obtain ⟨op, a, b⟩ := hd
      intro c c1 hrun
      cases hp : c.prepare fpow op a b with
      | error e =>
          rw [runCalcs_cons_error fpow c op a b rest e hp] at hrun
          exact absurd hrun (by simp)
      | ok cal =>
          rw [runCalcs_cons_ok fpow c op a b rest cal hp] at hrun
          rw [runRecords_cons_ok fpow c op a b rest cal hp]
          simp only [List.length_cons]
          rw [ih (c.commit cal) c1 hrun]

theorem runCalcs_history (fpow : ℚ → ℚ → ℚ) (inputs : List (String × ℚ × ℚ)) :
    ∀ c c1 : Calculator,
    c.historyManager.history.length ≤ c.historyManager.max_size →
    c.runCalcs fpow inputs = some c1 →
    c1.historyManager.max_size = c.historyManager.max_size ∧
    c1.historyManager.history =
      (c.historyManager.history ++ c.runRecords fpow inputs).drop
        (c.historyManager.history.length + inputs.length
          - c.historyManager.max_size) := by
  induction inputs with
  | nil =>
      intro c c1 hlen hrun
      rw [Calculator.runCalcs, Option.some_inj] at hrun
      subst hrun
      refine ⟨rfl, ?_⟩
      rw [Calculator.runRecords, List.append_nil]
      simp only [List.length_nil, Nat.add_zero]
      rw [Nat.sub_eq_zero_of_le hlen, List.drop_zero]
  | cons hd rest ih =>
      obtain ⟨op, a, b⟩ := hd
      intro c c1 hlen hrun
      cases hp : c.prepare fpow op a b with
      | error e =>
          rw [runCalcs_cons_error fpow c op a b rest e hp] at hrun
          exact absurd hrun (by simp)
      | ok cal =>
          rw [runCalcs_cons_ok fpow c op a b rest cal hp] at hrun
          rw [runRecords_cons_ok fpow c op a b rest cal hp]
          simp only [List.length_cons]
          have hms := commit_max_size c cal
          by_cases hover :
              c.historyManager.max_size ≤ c.historyManager.history.length
          · have hM : c.historyManager.history.length
                = c.historyManager.max_size := le_antisymm hlen hover
            have hhist : (c.commit cal).historyManager.history
                = (c.historyManager.history ++ [cal]).drop 1 := by
              rw [commit_historyManager]
              exact add_history_of_full c.historyManager cal hover
            have hlen2 : (c.commit cal).historyManager.history.length
                ≤ (c.commit cal).historyManager.max_size := by
              rw [hhist, hms]
              simp
              omega
            obtain ⟨ihms, ihh⟩ := ih (c.commit cal) c1 hlen2 hrun
            refine ⟨by rw [ihms, hms], ?_⟩
            rw [ihh, hhist, hms]
            have hdroplen : ((c.historyManager.history ++ [cal]).drop 1).length
                = c.historyManager.max_size := by
              simp
              omega
            rw [hdroplen]
            have h1le : 1 ≤ (c.historyManager.history ++ [cal]).length := by
              simp
            rw [← List.drop_append_of_le_length h1le, List.drop_drop]
            have hidx1 : c.historyManager.max_size + rest.length
                - c.historyManager.max_size = rest.length := by omega
            have hidx2 : c.historyManager.history.length + (rest.length + 1)
                - c.historyManager.max_size = 1 + rest.length := by omega
            rw [hidx1, hidx2, List.append_assoc, List.singleton_append]
          · push_neg at hover
            have hhist : (c.commit cal).historyManager.history
                = c.historyManager.history ++ [cal] := by
              rw [commit_historyManager]
              exact add_history_of_not_full c.historyManager cal hover
            have hlen2 : (c.commit cal).historyManager.history.length
                ≤ (c.commit cal).historyManager.max_size := by
              rw [hhist, hms]
              simp
              omega
            obtain ⟨ihms, ihh⟩ := ih (c.commit cal) c1 hlen2 hrun
            refine ⟨by rw [ihms, hms], ?_⟩
            rw [ihh, hhist, hms]
            have hdroplen : (c.historyManager.history ++ [cal]).length
                = c.historyManager.history.length + 1 := by simp
            rw [hdroplen]
            have hidx : c.historyManager.history.length + 1 + rest.length
                = c.historyManager.history.length + (rest.length + 1) := by omega
            rw [hidx, List.append_assoc, List.singleton_append]

/-- C1: running any sequence of N successful `calculate` calls on a fresh
calculator whose history capacity is M leaves `get_all()` equal to the most
recent M of the N records the calls constructed, oldest first, and its
length equal to min N M. -/
theorem history_most_recent_records (fpow : ℚ → ℚ → ℚ)
    (M precision : ℕ) (maxInputValue : ℚ)
    (inputs : List (String × ℚ × ℚ)) (c1 : Calculator)
    (hrun : (Calculator.fresh M precision maxInputValue).runCalcs fpow inputs
      = some c1) :
    c1.historyManager.get_all
      = ((Calculator.fresh M precision maxInputValue).runRecords fpow inputs).drop
          (inputs.length - M)
    ∧ c1.historyManager.get_all.length = min inputs.length M := by
  have e0 : (Calculator.fresh M precision maxInputValue).historyManager.history
      = [] := rfl
  have e1 : (Calculator.fresh M precision maxInputValue).historyManager.max_size
      = M := rfl
  obtain ⟨hms, hh⟩ := runCalcs_history fpow inputs
    (Calculator.fresh M precision maxInputValue) c1
    (by rw [e0]; exact Nat.zero_le _) hrun
  have hrecs : ((Calculator.fresh M precision maxInputValue).runRecords fpow
      inputs).length = inputs.length :=
    runRecords_length fpow inputs (Calculator.fresh M precision maxInputValue)
      c1 hrun
  rw [e0, e1] at hh
  simp only [List.length_nil, List.nil_append, Nat.zero_add] at hh
  refine ⟨?_, ?_⟩
  · rw [HistoryManager.get_all, hh]
  · rw [HistoryManager.get_all, hh, List.length_drop, hrecs]
    omega

theorem history_most_recent_records_witness :
    demoAfterAdd.historyManager.get_all
      = ((Calculator.fresh 2 0 10).runRecords fpow0 [("add", 1, 2)]).drop
          ([("add", (1 : ℚ), (2 : ℚ))].length - 2)
    ∧ demoAfterAdd.historyManager.get_all.length
      = min [("add", (1 : ℚ), (2 : ℚ))].length 2 :=
  history_most_recent_records fpow0 2 0 10 [("add", 1, 2)] demoAfterAdd
    (by show demoCalc.runCalcs fpow0 [("add", 1, 2)] = some demoAfterAdd
        rw [runCalcs_cons_ok fpow0 demoCalc "add" 1 2 [] addRecord
          demoCalc_prepare_add, demoAfterAdd_eq]
        rfl)

theorem calcInv_step (fpow : ℚ → ℚ → ℚ) (M : ℕ) (c c1 : Calculator)
    (h : CalcInv M c) (hs : CalcStep fpow c c1) : CalcInv M c1 := by
  obtain ⟨hM, hlen, hundo, hredo⟩ := h
  cases hs with
  | step_calculate op a b =>
      cases hp : c.prepare fpow op a b with
      | error e =>
          rw [calculate_of_prepare_error fpow c op a b e hp]
          exact ⟨hM, hlen, hundo, hredo⟩
      | ok cal =>
          rw [calculate_of_prepare_ok fpow c op a b cal hp]
          refine ⟨hM, ?_, ?_, ?_⟩
          · by_cases hov : c.historyManager.max_size ≤ c.historyManager.history.length
            · rw [commit_historyManager, add_history_of_full c.historyManager cal hov]
              simp
              omega
            · push_neg at hov
              rw [commit_historyManager, add_history_of_not_full c.historyManager cal hov]
              simp
              omega
          · intro s hsmem
            have he : (c.commit cal).caretaker.undo_stack
                = c.historyManager.get_all :: c.caretaker.undo_stack := rfl
            rw [he] at hsmem
            rcases List.mem_cons.mp hsmem with rfl | hmem
            · exact hlen
            · exact hundo s hmem
          · intro s hsmem
            have he : (c.commit cal).caretaker.redo_stack = [] := rfl
            rw [he] at hsmem
            exact absurd hsmem (List.not_mem_nil s)
  | step_undo =>
      cases hu : c.caretaker.undo_stack with
      | nil =>
          have he : c.undo.2 = c := by
            simp [Calculator.undo, CalculatorCaretaker.can_undo, hu]
          rw [he]
          exact ⟨hM, hlen, hundo, hredo⟩
      | cons prev rest =>
          have he : c.undo.2 = { c with
              caretaker :=
                ⟨rest, c.historyManager.get_all :: c.caretaker.redo_stack⟩,
              historyManager := { c.historyManager with history := prev } } := by
            simp [Calculator.undo, CalculatorCaretaker.can_undo, hu,
              CalculatorCaretaker.undo, HistoryManager.get_all]
          rw [he]
          refine ⟨hM, ?_, ?_, ?_⟩
          · exact hundo prev (by rw [hu]; exact List.mem_cons_self _ _)
          · intro s hs1
            exact hundo s (by rw [hu]; exact List.mem_cons_of_mem _ hs1)
          · intro s hs1
            rcases List.mem_cons.mp hs1 with rfl | hmem
            · exact hlen
            · exact hredo s hmem
  | step_redo =>
      cases hr : c.caretaker.redo_stack with
      | nil =>
          have he : c.redo.2 = c := by
            simp [Calculator.redo, CalculatorCaretaker.can_redo, hr]
          rw [he]
          exact ⟨hM, hlen, hundo, hredo⟩
      | cons next rest =>
          have he : c.redo.2 = { c with
              caretaker :=
                ⟨c.historyManager.get_all :: c.caretaker.undo_stack, rest⟩,
              historyManager := { c.historyManager with history := next } } := by
            simp [Calculator.redo, CalculatorCaretaker.can_redo, hr,
              CalculatorCaretaker.redo, HistoryManager.get_all]
          rw [he]
          refine ⟨hM, ?_, ?_, ?_⟩
          · exact hredo next (by rw [hr]; exact List.mem_cons_self _ _)
          · intro s hs1
            rcases List.mem_cons.mp hs1 with rfl | hmem
            · exact hlen
            · exact hundo s hmem
          · intro s hs1
            exact hredo s (by rw [hr]; exact List.mem_cons_of_mem _ hs1)
  | step_clear =>
      refine ⟨hM, ?_, ?_, ?_⟩
      · have he : c.clear_history.historyManager.history = [] := rfl
        rw [he]
        simp
      · intro s hsmem
        have he : c.clear_history.caretaker.undo_stack
            = c.historyManager.get_all :: c.caretaker.undo_stack := rfl
        rw [he] at hsmem
        rcases List.mem_cons.mp hsmem with rfl | hmem
        · exact hlen
        · exact hundo s hmem
      · intro s hsmem
        have he : c.clear_history.caretaker.redo_stack = [] := rfl
        rw [he] at hsmem
        exact absurd hsmem (List.not_mem_nil s)

theorem calcInv_fresh (M precision : ℕ) (maxInputValue : ℚ) :
    CalcInv M (Calculator.fresh M precision maxInputValue) := by
  refine ⟨rfl, ?_, ?_, ?_⟩
  · show List.length [] ≤ M
    simp
  · intro s hs
    exact absurd hs (List.not_mem_nil s)
  · intro s hs
    exact absurd hs (List.not_mem_nil s)

theorem calcInv_reachable (fpow : ℚ → ℚ → ℚ) (M precision : ℕ)
    (maxInputValue : ℚ) (c1 : Calculator)
    (h : Relation.ReflTransGen (CalcStep fpow)
      (Calculator.fresh M precision maxInputValue) c1) :
    CalcInv M c1 := by
  induction h with
  | refl => exact calcInv_fresh M precision maxInputValue
  | tail hab hstep ih => exact calcInv_step fpow M _ _ ih hstep

/-- C5 counterexample: loading a CSV file holding two parseable rows into a
fresh calculator configured with capacity 1 leaves the history buffer at
length 2, above the configured maximum — `load_from_csv` installs the parsed
rows without truncating to `max_size`, so the claimed invariant fails for
states reached through `load_history`. -/
theorem load_history_exceeds_capacity_counterexample :
    ((Calculator.fresh 1 0 10).load_history demoFs
        "history.csv").2.historyManager.history.length = 2
    ∧ (Calculator.fresh 1 0 10).historyManager.max_size = 1
    ∧ ¬ ((Calculator.fresh 1 0 10).load_history demoFs
        "history.csv").2.historyManager.history.length
        ≤ (Calculator.fresh 1 0 10).historyManager.max_size := by
  refine ⟨rfl, rfl, ?_⟩
  intro hle
  have h2 : ((Calculator.fresh 1 0 10).load_history demoFs
      "history.csv").2.historyManager.history.length = 2 := rfl
  have h1 : (Calculator.fresh 1 0 10).historyManager.max_size = 1 := rfl
  rw [h2, h1] at hle
  omega

/-- C5 (amended): in every state reachable from a fresh calculator through
the state-changing entry points `calculate`, `undo`, `redo` and
`clear_history`, the history length stays within the configured capacity M,
and whenever an append would exceed capacity, `add` removes the oldest
record (index 0) first.  `load_history` is excluded: it replaces the history
with every parsed row of the file without truncation, which can exceed the
capacity (see the counterexample). -/
theorem bounded_history_reachable (fpow : ℚ → ℚ → ℚ) (M precision : ℕ)
    (maxInputValue : ℚ) (c1 : Calculator)
    (h : Relation.ReflTransGen (CalcStep fpow)
      (Calculator.fresh M precision maxInputValue) c1) :
    c1.historyManager.history.length ≤ M
    ∧ ∀ (hm : HistoryManager) (cal : Calculation),
        hm.max_size ≤ hm.history.length →
        (hm.add cal).history = (hm.history ++ [cal]).drop 1 :=
  ⟨(calcInv_reachable fpow M precision maxInputValue c1 h).2.1,
   fun hm cal hfull => add_history_of_full hm cal hfull⟩

theorem bounded_history_reachable_witness :
    (Calculator.fresh 100 10 10).historyManager.history.length ≤ 100
    ∧ ∀ (hm : HistoryManager) (cal : Calculation),
        hm.max_size ≤ hm.history.length →
        (hm.add cal).history = (hm.history ++ [cal]).drop 1 :=
  bounded_history_reachable fpow0 100 10 10 _ Relation.ReflTransGen.refl

/-- C7 counterexample: `Calculation` is declared with a plain `@dataclass`
(frozen is not set), so it is mutable, and `get_all` returns a shallow copy
sharing the record objects.  A caller that takes the first record returned
by `get_all` and assigns its `result` field changes the record the manager
sees through its own history: the claimed caller-mutation isolation fails. -/
theorem get_all_record_mutation_counterexample :
    (RefHistory.mk [0]).values
        ((CalcStore.mk [addRecord]).setResult
          ((RefHistory.mk [0]).get_all.headD 0) 99)
      ≠ (RefHistory.mk [0]).values (CalcStore.mk [addRecord]) := by
  intro heq
  have h1 : (RefHistory.mk [0]).values
      ((CalcStore.mk [addRecord]).setResult
        ((RefHistory.mk [0]).get_all.headD 0) 99)
      = [some { addRecord with result := 99 }] := rfl
  have h2 : (RefHistory.mk [0]).values (CalcStore.mk [addRecord])
      = [some addRecord] := rfl
  rw [h1, h2] at heq
  have h3 : ({ addRecord with result := 99 } : Calculation).result
      = addRecord.result := by
    rw [List.cons.injEq] at heq
    rw [Option.some_inj] at heq
    rw [heq.1]
  rw [addRecord] at h3
  norm_num at h3

/-- C7 (amended): `get_all` returns a new list equal to the internal
reference list, so caller changes to the structure of the returned sequence
never touch the manager, and a field assignment on a record NOT referenced
by the history leaves the manager unchanged — but the copy is shallow: a
field assignment on a record the history references (possible because the
`Calculation` dataclass is not frozen) changes the values seen through the
internal history. -/
theorem get_all_shallow_copy (s : CalcStore) (hm : RefHistory) (r : CalcRef)
    (v : ℚ) :
    hm.get_all = hm.history
    ∧ (r ∉ hm.history → hm.values (s.setResult r v) = hm.values s)
    ∧ ∀ cal : Calculation, s.recs[(r : ℕ)]? = some cal → r ∈ hm.history →
        cal.result ≠ v → hm.values (s.setResult r v) ≠ hm.values s := by
  refine ⟨rfl, ?_, ?_⟩
  · intro hnot
    rw [RefHistory.values, RefHistory.values]
    apply List.map_congr_left
    intro x hx
    have hxr : x ≠ r := fun hc => hnot (hc ▸ hx)
    rw [CalcStore.setResult]
    cases hcal : s.recs[(r : ℕ)]? with
    | none => rfl
    | some cal =>
        show (s.recs.set r { cal with result := v })[(x : ℕ)]? = s.recs[(x : ℕ)]?
        exact List.getElem?_set_ne (fun hc => hxr (by exact_mod_cast hc.symm))
  · intro cal hcal hmem hne heq
    rw [RefHistory.values, RefHistory.values, List.map_eq_map_iff] at heq
    have hr := heq r hmem
    have hlt : (r : ℕ) < s.recs.length := by
      by_contra hge
      push_neg at hge
      rw [List.getElem?_eq_none hge] at hcal
      exact absurd hcal (by simp)
    have hrecs : (s.setResult r v).recs
        = s.recs.set r { cal with result := v } := by
      rw [CalcStore.setResult, hcal]
    have hset : (s.recs.set r { cal with result := v })[(r : ℕ)]?
        = some { cal with result := v } := List.getElem?_set_self hlt
    rw [hrecs, hset, hcal, Option.some_inj] at hr
    have hv : v = cal.result := congrArg Calculation.result hr
    exact hne hv.symm

theorem get_all_shallow_copy_witness :
    (RefHistory.mk [0]).values ((CalcStore.mk [addRecord]).setResult 1 99)
      = (RefHistory.mk [0]).values (CalcStore.mk [addRecord])
    ∧ (RefHistory.mk [0]).values ((CalcStore.mk [addRecord]).setResult 0 99)
      ≠ (RefHistory.mk [0]).values (CalcStore.mk [addRecord]) :=
  ⟨(get_all_shallow_copy (CalcStore.mk [addRecord]) (RefHistory.mk [0]) 1 99).2.1
      (by simp),
   (get_all_shallow_copy (CalcStore.mk [addRecord]) (RefHistory.mk [0]) 0 99).2.2
      addRecord rfl (by simp) (by rw [addRecord]; norm_num)⟩

end EnhancedCalculator
